import Mathlib

/-!
Shallow embedding of the SmartFix backend resilience core
(`backend/app/core/retry.py`, `cache.py`, `monitoring.py`) and proofs of the
specification claims about it.

Conventions of the embedding:
* Python wall-clock times (`time.time()`, `datetime.utcnow()`) are modelled as
  rationals (`ℚ`); every operation that reads the clock takes the current time
  `now` as an explicit argument.
* Methods that mutate `self` are modelled as functions from the state to a pair
  of the new state and the returned value.
* `random.uniform(0, b)` is modelled by passing the drawn value as an explicit
  oracle argument, constrained to the interval where a claim needs it.
* Python exceptions raised by wrapped operations, health checks and alert
  handlers are modelled with `Except String`.
-/

namespace SmartFix

/-! ### Definitions: CircuitBreaker (`backend/app/core/retry.py`) -/

/-- `CircuitState` enum from `retry.py`. -/
inductive CircuitState where
  | CLOSED
  | OPEN
  | HALF_OPEN
deriving DecidableEq, Repr

/-- State of a `CircuitBreaker` instance: constructor defaults are
`failure_threshold=5`, `recovery_timeout=60.0`, state `CLOSED`,
`failure_count=0`, `last_failure_time=None`, `success_count=0`. -/
structure CircuitBreaker where
  failure_threshold : Nat := 5
  recovery_timeout : ℚ := 60
  state : CircuitState := CircuitState.CLOSED
  failure_count : Nat := 0
  last_failure_time : Option ℚ := none
  success_count : Nat := 0
deriving DecidableEq, Repr

namespace CircuitBreaker

/-- `CircuitBreaker.can_execute`.  Reads the clock (`now`) and may transition
OPEN → HALF_OPEN.  In the source, `last_failure_time` is always set whenever
the state is OPEN (OPEN is only entered by `on_failure`, which has just set
it); the `none` branch is unreachable there and returns `false` here. -/
def can_execute (cb : CircuitBreaker) (now : ℚ) : CircuitBreaker × Bool :=
  match cb.state with
  | CircuitState.CLOSED => (cb, true)
  | CircuitState.OPEN =>
    match cb.last_failure_time with
    | some t =>
      if now - t > cb.recovery_timeout then
        ({ cb with state := CircuitState.HALF_OPEN }, true)
      else
        (cb, false)
    | none => (cb, false)
  | CircuitState.HALF_OPEN => (cb, true)

/-- `CircuitBreaker.on_success`: only effective in HALF_OPEN, where two
successes close the breaker and reset both counters. -/
def on_success (cb : CircuitBreaker) : CircuitBreaker :=
  if cb.state = CircuitState.HALF_OPEN then
    let cb' := { cb with success_count := cb.success_count + 1 }
    if cb'.success_count ≥ 2 then
      { cb' with state := CircuitState.CLOSED, failure_count := 0, success_count := 0 }
    else
      cb'
  else
    cb

/-- `CircuitBreaker.on_failure`: increments `failure_count`, stamps
`last_failure_time = now`, opens from CLOSED once the threshold is reached and
reopens immediately from HALF_OPEN. -/
def on_failure (cb : CircuitBreaker) (now : ℚ) : CircuitBreaker :=
  let cb' := { cb with failure_count := cb.failure_count + 1, last_failure_time := some now }
  if cb'.state = CircuitState.CLOSED ∧ cb'.failure_count ≥ cb'.failure_threshold then
    { cb' with state := CircuitState.OPEN }
  else if cb'.state = CircuitState.HALF_OPEN then
    { cb' with state := CircuitState.OPEN }
  else
    cb'

end CircuitBreaker

/-- A fresh breaker with `failure_threshold = 5` and the given
`recovery_timeout`, as built by `CircuitBreaker()` in the source. -/
def freshBreaker (rt : ℚ) : CircuitBreaker :=
  { failure_threshold := 5, recovery_timeout := rt }

/-- A breaker mid-probation: HALF_OPEN after five failures, no successes yet. -/
def probationBreaker : CircuitBreaker :=
  ⟨5, 60, CircuitState.HALF_OPEN, 5, some 0, 0⟩

/-! ### Definitions: retry executor (`backend/app/core/retry.py`) -/

/-- `RetryStrategy` enum from `retry.py`. -/
inductive RetryStrategy where
  | FIXED
  | EXPONENTIAL
  | LINEAR
deriving DecidableEq, Repr

/-- `RetryConfig`; constructor defaults follow the source
(`settings.MAX_RETRIES = 3`, `settings.RETRY_DELAY = 1.0`). -/
structure RetryConfig where
  max_retries : Nat := 3
  base_delay : ℚ := 1
  max_delay : ℚ := 60
  strategy : RetryStrategy := RetryStrategy.EXPONENTIAL
  jitter : Bool := true
  backoff_factor : ℚ := 2
deriving DecidableEq, Repr

/-- The strategy-dependent base value computed by the first `if/elif/else`
of `RetryManager.calculate_delay`. -/
def strategy_delay (config : RetryConfig) (attempt : Nat) : ℚ :=
  match config.strategy with
  | RetryStrategy.FIXED => config.base_delay
  | RetryStrategy.LINEAR => config.base_delay * attempt
  | RetryStrategy.EXPONENTIAL => config.base_delay * config.backoff_factor ^ (attempt - 1)

/-- `RetryManager.calculate_delay`.  The value drawn by
`random.uniform(0, 0.1 * delay)` is passed in as `jitterDraw`.  Note the
source order: the jitter is added to the strategy delay FIRST, and only then
is the sum clamped with `min(delay, config.max_delay)`. -/
def calculate_delay (config : RetryConfig) (attempt : Nat) (jitterDraw : ℚ) : ℚ :=
  let delay := strategy_delay config attempt
  let delay := if config.jitter then delay + jitterDraw else delay
  min delay config.max_delay

/-- The delay computation in the order claim C4 states it: clamp the strategy
delay to `max_delay` first, then add the jitter draw to the clamped value.
Written from the claim's words, for refinement comparison with
`calculate_delay` (which clamps last). -/
def calculate_delay_claimOrder (config : RetryConfig) (attempt : Nat) (jitterDraw : ℚ) : ℚ :=
  let delay := strategy_delay config attempt
  let clamped := min delay config.max_delay
  if config.jitter then clamped + jitterDraw else clamped

/-- Result of one `async_wrapper` call: the circuit-open fast failure, a
returned value, or the re-raised last exception. -/
inductive RetryOutcome (E A : Type) where
  | circuitOpen
  | ok (a : A)
  | failed (e : E)
deriving DecidableEq, Repr

/-- The `for attempt in range(1, config.max_retries + 2)` loop of
`retry_with_circuit_breaker.async_wrapper` (`retry.py` lines 166-195).
`op i` is the outcome the wrapped operation produces on the i-th invocation
(`Except.error` = a raised exception from the `exceptions` tuple), `times i`
is the wall-clock instant at which the failure of attempt `i` is recorded by
`on_failure`.  Returns the final breaker, the loop result and the number of
times the operation was invoked. -/
def retryLoop (op : Nat → Except E A) (times : Nat → ℚ) (max_retries : Nat)
    (cb : CircuitBreaker) (attempt : Nat) : CircuitBreaker × Except E A × Nat :=
  match op attempt with
  | Except.ok a => (cb.on_success, Except.ok a, 1)
  | Except.error e =>
    let cb' := cb.on_failure (times attempt)
    if h : attempt ≤ max_retries then
      let r := retryLoop op times max_retries cb' (attempt + 1)
      (r.1, r.2.1, r.2.2 + 1)
    else
      (cb', Except.error e, 1)
termination_by max_retries + 1 - attempt
decreasing_by omega

/-- `retry_with_circuit_breaker.async_wrapper`: consult the breaker at entry
(raising the circuit-open exception with no attempt made if it refuses), then
run the attempt loop starting at attempt 1; if the loop ends with an error,
`raise last_exception` re-raises it unmodified. -/
def async_wrapper (service_cb : CircuitBreaker) (op : Nat → Except E A)
    (now : ℚ) (times : Nat → ℚ) (max_retries : Nat) :
    CircuitBreaker × RetryOutcome E A × Nat :=
  let entry := service_cb.can_execute now
  if entry.2 then
    let r := retryLoop op times max_retries entry.1 1
    (r.1,
      match r.2.1 with
      | Except.ok a => RetryOutcome.ok a
      | Except.error e => RetryOutcome.failed e,
      r.2.2)
  else
    (entry.1, RetryOutcome.circuitOpen, 0)

/-- `n`-fold application of `on_failure`, recording failures of attempts
`start, start+1, …, start+n-1` at times `times start, …, times (start+n-1)`.
Used to state which breaker results from a run whose attempts all failed. -/
def onFailureSeq (cb : CircuitBreaker) (times : Nat → ℚ) (start : Nat) : Nat → CircuitBreaker
  | 0 => cb
  | n + 1 => (onFailureSeq cb times start n).on_failure (times (start + n))

/-! ### Definitions: CacheManager in-memory backend (`backend/app/core/cache.py`)

`_init_redis` always sets `use_redis = False`, so the memory branch of every
method is the live code path; only that branch is modelled. -/

/-- One value of `self.memory_cache`: `{'value': …, 'expires_at': …}`. -/
structure CacheEntry (α : Type) where
  value : α
  expires_at : ℚ
deriving DecidableEq, Repr

/-- `self.memory_cache`: a Python dict (insertion-ordered, unique keys) as an
association list. -/
abbrev MemoryCache (α : Type) := List (String × CacheEntry α)

/-- Python substring containment `sub in s` on character lists. -/
def hasSubstr : List Char → List Char → Bool
  | s, sub =>
    sub.isPrefixOf s ||
      match s with
      | [] => false
      | _ :: t => hasSubstr t sub

namespace CacheManager

/-- Python dict assignment `self.memory_cache[key] = entry`: replaces the
entry of an existing key in place, appends a new key at the end. -/
def dictInsert (c : MemoryCache α) (key : String) (e : CacheEntry α) : MemoryCache α :=
  if (List.lookup key c).isSome then
    c.map (fun kv => if kv.1 = key then (key, e) else kv)
  else
    c ++ [(key, e)]

/-- `del self.memory_cache[key]`. -/
def eraseKey (c : MemoryCache α) (key : String) : MemoryCache α :=
  c.filter (fun kv => kv.1 != key)

/-- `CacheManager.set` (memory branch): stores
`expires_at = now + (expire or 3600)`.  Python `or` treats both `None` and
`0` as absent, defaulting to 3600 seconds. -/
def set (c : MemoryCache α) (key : String) (value : α) (expire : Option ℤ) (now : ℚ) :
    MemoryCache α × Bool :=
  let ttl : ℤ :=
    match expire with
    | some e => if e = 0 then 3600 else e
    | none => 3600
  (dictInsert c key ⟨value, now + (ttl : ℚ)⟩, true)

/-- `CacheManager.get` (memory branch): returns the value only while
`expires_at > now`; an expired entry is deleted (lazy expiry) and `None` is
returned. -/
def get (c : MemoryCache α) (key : String) (now : ℚ) : MemoryCache α × Option α :=
  match List.lookup key c with
  | some entry =>
    if entry.expires_at > now then
      (c, some entry.value)
    else
      (eraseKey c key, none)
  | none => (c, none)

/-- `CacheManager.delete` (memory branch). -/
def delete (c : MemoryCache α) (key : String) : MemoryCache α × Bool :=
  if (List.lookup key c).isSome then
    (eraseKey c key, true)
  else
    (c, false)

/-- `CacheManager.exists` (memory branch): reports whether a live entry is
present; the store is returned unchanged — the source performs no deletion
here. -/
def «exists» (c : MemoryCache α) (key : String) (now : ℚ) : MemoryCache α × Bool :=
  (c,
    match List.lookup key c with
    | some entry => decide (entry.expires_at > now)
    | none => false)

/-- `CacheManager.expire` (memory branch): if the key is present — whether
its entry is live or already expired — stamp a fresh
`expires_at = now + seconds` on it and return `true`; `false` if absent. -/
def expire (c : MemoryCache α) (key : String) (seconds : ℤ) (now : ℚ) :
    MemoryCache α × Bool :=
  match List.lookup key c with
  | some _ =>
    (c.map (fun kv => if kv.1 = key then (kv.1, ⟨kv.2.value, now + (seconds : ℚ)⟩) else kv),
      true)
  | none => (c, false)

/-- `CacheManager.clear_pattern` (memory branch):
`pattern.replace('*', '')` removes EVERY `'*'` (wherever it occurs), then
every key containing the remaining string as a substring is collected and
deleted; returns the number of keys deleted. -/
def clear_pattern (c : MemoryCache α) (pattern : String) : MemoryCache α × Nat :=
  let stripped := pattern.data.filter (fun ch => ch != '*')
  (c.filter (fun kv => !(hasSubstr kv.1.data stripped)),
    (c.filter (fun kv => hasSubstr kv.1.data stripped)).length)

/-- `CacheManager.get_stats` (memory branch): `total_keys` and the count of
`active_keys`, i.e. entries with `expires_at > now`. -/
def get_stats (c : MemoryCache α) (now : ℚ) : Nat × Nat :=
  (c.length, (c.filter (fun kv => decide (kv.2.expires_at > now))).length)

end CacheManager

/-- The pattern-clearing operation as claim C6 words it, modelled from the
claim: strip only a TRAILING run of `'*'` from the pattern (leaving `'*'`
elsewhere intact) and delete keys containing the remainder as a substring.
For refinement comparison with `CacheManager.clear_pattern`. -/
def clear_pattern_claimTrailing (c : MemoryCache α) (pattern : String) :
    MemoryCache α × Nat :=
  let stripped := (pattern.data.reverse.dropWhile (fun ch => ch == '*')).reverse
  (c.filter (fun kv => !(hasSubstr kv.1.data stripped)),
    (c.filter (fun kv => hasSubstr kv.1.data stripped)).length)

/-! ### Definitions: monitoring (`backend/app/core/monitoring.py`) -/

/-- The status strings `"healthy"`, `"degraded"`, `"unhealthy"`. -/
inductive HealthStatus where
  | healthy
  | degraded
  | unhealthy
deriving DecidableEq, Repr

/-- `ServiceHealth` dataclass.  The `details` dict payload is abstracted to an
optional opaque string; the modelled code never inspects it. -/
structure ServiceHealth where
  name : String
  status : HealthStatus
  response_time : ℚ
  last_check : ℚ
  error_message : Option String := none
  details : Option String := none
deriving DecidableEq, Repr

/-- `HealthChecker.run_all_checks`.  `checks` is the `health_checks` dict as
an ordered name/check association list; each check's behaviour on this run is
given as `Except String ServiceHealth` (`Except.error msg` = the check
raised).  A raised failure is caught in the loop body and converted to an
unhealthy record carrying the failure text, with `response_time = 0.0` and
`last_check = now`; the loop then continues with the remaining checks. -/
def run_all_checks (checks : List (String × Except String ServiceHealth)) (now : ℚ) :
    List (String × ServiceHealth) :=
  checks.map (fun nc =>
    match nc.2 with
    | Except.ok r => (nc.1, r)
    | Except.error e =>
      (nc.1, ⟨nc.1, HealthStatus.unhealthy, 0, now, some e, none⟩))

/-- The request-counter state of `MetricsCollector`. -/
structure MetricsCollector where
  request_times : List ℚ
  error_count : Nat
  total_requests : Nat
  last_reset : ℚ
deriving DecidableEq, Repr

/-- `deque(maxlen=cap).append(x)`: drops from the left when full. -/
def dequeAppend (cap : Nat) (l : List ℚ) (x : ℚ) : List ℚ :=
  let l' := l ++ [x]
  l'.drop (l'.length - cap)

/-- `MetricsCollector.record_request`: appends the response time to the
bounded buffer, increments `total_requests`, and increments `error_count`
when `is_error`. -/
def record_request (mc : MetricsCollector) (response_time : ℚ) (is_error : Bool) :
    MetricsCollector :=
  ⟨dequeAppend 1000 mc.request_times response_time,
    mc.error_count + (if is_error then 1 else 0),
    mc.total_requests + 1,
    mc.last_reset⟩

/-- `MetricsCollector._calculate_requests_per_minute`: if 60 or more seconds
have elapsed since `last_reset`, zero both counters, advance `last_reset` to
`now` and return `0.0`; otherwise return the running `total_requests` without
touching any state. -/
def calculate_requests_per_minute (mc : MetricsCollector) (now : ℚ) :
    MetricsCollector × ℚ :=
  if now - mc.last_reset ≥ 60 then
    (⟨mc.request_times, 0, 0, now⟩, 0)
  else
    (mc, (mc.total_requests : ℚ))

/-- `AlertManager` state relevant to dispatch: the alert history and the
registered handlers, each handler's behaviour on a given alert modelled as
`Except String Unit` (`Except.error` = the handler raised). -/
structure AlertManagerState (A : Type) where
  alerts : List A
  handlers : List (A → Except String Unit)

/-- The `for handler in self.alert_handlers` loop of
`AlertManager._process_alert`: every handler is invoked on the alert in
registration order; a raising handler is caught (and logged) in the loop
body, so the loop continues regardless.  The returned list records each
handler's outcome in order. -/
def runHandlers {A : Type} (handlers : List (A → Except String Unit)) (alert : A) :
    List (Except String Unit) :=
  match handlers with
  | [] => []
  | h :: rest => h alert :: runHandlers rest alert

/-- `AlertManager._process_alert`: append the alert to the history FIRST,
then run every registered handler on it. -/
def process_alert {A : Type} (st : AlertManagerState A) (alert : A) :
    AlertManagerState A × List (Except String Unit) :=
  (⟨st.alerts ++ [alert], st.handlers⟩, runHandlers st.handlers alert)

/-- The final `for alert in alerts: self._process_alert(alert)` loop of
`AlertManager.check_alerts`: processes each synthesized alert in order,
threading the history. -/
def process_alerts {A : Type} (st : AlertManagerState A) (alerts : List A) :
    AlertManagerState A × List (List (Except String Unit)) :=
  match alerts with
  | [] => (st, [])
  | a :: rest =>
    let r := process_alert st a
    let r' := process_alerts r.1 rest
    (r'.1, r.2 :: r'.2)

/-- Initial `MetricsCollector` counters (as in `__init__` at start time 0). -/
def mcInit : MetricsCollector := ⟨[], 0, 0, 0⟩

/-- Three requests recorded in the first window (the second one an error). -/
def mcW : MetricsCollector :=
  record_request (record_request (record_request mcInit 1 false) 1 true) 1 false

/-- A healthy database record used by the C8 witness. -/
def dbRec : ServiceHealth := ⟨"db", HealthStatus.healthy, 1, 0, none, none⟩

/-! ### Theorems: CircuitBreaker step lemmas -/

namespace CircuitBreaker

theorem on_failure_closed_below (cb : CircuitBreaker) (t : ℚ)
    (hs : cb.state = CircuitState.CLOSED)
    (hlt : cb.failure_count + 1 < cb.failure_threshold) :
    cb.on_failure t =
      ⟨cb.failure_threshold, cb.recovery_timeout, CircuitState.CLOSED,
        cb.failure_count + 1, some t, cb.success_count⟩ := by
  simp only [on_failure]
  split
  all_goals try split
  all_goals try (cases cb; cases hs; rfl)
  all_goals simp_all
  all_goals omega

theorem on_failure_closed_reaches (cb : CircuitBreaker) (t : ℚ)
    (hs : cb.state = CircuitState.CLOSED)
    (hge : cb.failure_count + 1 ≥ cb.failure_threshold) :
    cb.on_failure t =
      ⟨cb.failure_threshold, cb.recovery_timeout, CircuitState.OPEN,
        cb.failure_count + 1, some t, cb.success_count⟩ := by
  simp only [on_failure]
  split
  · rfl
  · next h => exact absurd ⟨by simpa using hs, by simpa using hge⟩ h

theorem on_failure_half_open (cb : CircuitBreaker) (t : ℚ)
    (hs : cb.state = CircuitState.HALF_OPEN) :
    cb.on_failure t =
      ⟨cb.failure_threshold, cb.recovery_timeout, CircuitState.OPEN,
        cb.failure_count + 1, some t, cb.success_count⟩ := by
  simp only [on_failure]
  split
  all_goals try split
  all_goals try rfl
  all_goals simp_all

theorem on_failure_when_open (cb : CircuitBreaker) (t : ℚ)
    (hs : cb.state = CircuitState.OPEN) :
    cb.on_failure t =
      ⟨cb.failure_threshold, cb.recovery_timeout, CircuitState.OPEN,
        cb.failure_count + 1, some t, cb.success_count⟩ := by
  simp only [on_failure]
  split
  all_goals try split
  all_goals try (cases cb; cases hs; rfl)
  all_goals simp_all

theorem can_execute_closed (cb : CircuitBreaker) (now : ℚ)
    (hs : cb.state = CircuitState.CLOSED) :
    cb.can_execute now = (cb, true) := by
  simp [can_execute, hs]

theorem can_execute_half_open (cb : CircuitBreaker) (now : ℚ)
    (hs : cb.state = CircuitState.HALF_OPEN) :
    cb.can_execute now = (cb, true) := by
  simp [can_execute, hs]

theorem can_execute_open_early (cb : CircuitBreaker) (now t : ℚ)
    (hs : cb.state = CircuitState.OPEN) (ht : cb.last_failure_time = some t)
    (h : ¬ now - t > cb.recovery_timeout) :
    cb.can_execute now = (cb, false) := by
  simp [can_execute, hs, ht, h]

theorem can_execute_open_late (cb : CircuitBreaker) (now t : ℚ)
    (hs : cb.state = CircuitState.OPEN) (ht : cb.last_failure_time = some t)
    (h : now - t > cb.recovery_timeout) :
    cb.can_execute now = ({ cb with state := CircuitState.HALF_OPEN }, true) := by
  simp [can_execute, hs, ht, h]

theorem on_success_not_half_open (cb : CircuitBreaker)
    (hs : cb.state ≠ CircuitState.HALF_OPEN) :
    cb.on_success = cb := by
  simp [on_success, hs]

theorem on_success_half_open_below (cb : CircuitBreaker)
    (hs : cb.state = CircuitState.HALF_OPEN) (hc : cb.success_count + 1 < 2) :
    cb.on_success = { cb with success_count := cb.success_count + 1 } := by
  simp only [on_success, hs, if_true]
  split
  · next h => omega
  · rfl

theorem on_success_half_open_closes (cb : CircuitBreaker)
    (hs : cb.state = CircuitState.HALF_OPEN) (hc : cb.success_count + 1 ≥ 2) :
    cb.on_success =
      { cb with state := CircuitState.CLOSED, failure_count := 0, success_count := 0 } := by
  simp only [on_success, hs, if_true]
  split
  · rfl
  · next h => omega

end CircuitBreaker

/-! ### Theorems: cache helper lemmas -/

namespace CacheManager

theorem lookup_map_replace (c : MemoryCache α) (key : String) (e : CacheEntry α)
    (h : (List.lookup key c).isSome) :
    List.lookup key (c.map (fun kv => if kv.1 = key then (key, e) else kv)) = some e := by
  induction c with
  | nil => simp at h
  | cons p t ih =>
    obtain ⟨k, v⟩ := p
    by_cases hk : k = key
    · subst hk
      simp [List.lookup_cons]
    · have hne : key ≠ k := fun hh => hk hh.symm
      have hbeq : (key == k) = false := by simpa using hne
      simp only [List.lookup_cons, hbeq] at h
      simp only [List.map_cons, if_neg hk, List.lookup_cons, hbeq]
      exact ih h

theorem lookup_append_single (c : MemoryCache α) (key : String) (e : CacheEntry α)
    (h : List.lookup key c = none) :
    List.lookup key (c ++ [(key, e)]) = some e := by
  induction c with
  | nil => simp [List.lookup_cons]
  | cons p t ih =>
    obtain ⟨k, v⟩ := p
    rw [List.lookup_cons] at h
    cases hbeq : (key == k) with
    | true => rw [hbeq] at h; simp at h
    | false =>
      rw [hbeq] at h
      simp only [List.cons_append, List.lookup_cons, hbeq]
      exact ih h

theorem lookup_dictInsert_self (c : MemoryCache α) (key : String) (e : CacheEntry α) :
    List.lookup key (dictInsert c key e) = some e := by
  unfold dictInsert
  by_cases h : (List.lookup key c).isSome
  · rw [if_pos h]
    exact lookup_map_replace c key e h
  · rw [if_neg h]
    apply lookup_append_single
    cases hl : List.lookup key c with
    | none => rfl
    | some x => rw [hl] at h; simp at h

theorem lookup_none_no_mem (c : MemoryCache α) (key : String)
    (h : List.lookup key c = none) : ∀ kv ∈ c, kv.1 ≠ key := by
  induction c with
  | nil => intro kv hkv; simp at hkv
  | cons p t ih =>
    obtain ⟨k, v⟩ := p
    intro kv hkv
    rw [List.lookup_cons] at h
    cases hbeq : (key == k) with
    | true => rw [hbeq] at h; simp at h
    | false =>
      rw [hbeq] at h
      rcases List.mem_cons.mp hkv with hhead | htail
      · subst hhead
        have hne : key ≠ k := by simpa using hbeq
        exact fun hh => hne hh.symm
      · exact ih h kv htail

theorem mem_dictInsert_key_eq (c : MemoryCache α) (key : String) (e : CacheEntry α)
    (kv : String × CacheEntry α) (hmem : kv ∈ dictInsert c key e) (hk : kv.1 = key) :
    kv.2 = e := by
  unfold dictInsert at hmem
  by_cases h : (List.lookup key c).isSome
  · rw [if_pos h] at hmem
    obtain ⟨kv0, hkv0, heq⟩ := List.mem_map.mp hmem
    by_cases h0 : kv0.1 = key
    · rw [if_pos h0] at heq
      rw [← heq]
    · rw [if_neg h0] at heq
      rw [← heq] at hk
      exact absurd hk h0
  · rw [if_neg h] at hmem
    have hnone : List.lookup key c = none := by
      cases hl : List.lookup key c with
      | none => rfl
      | some x => rw [hl] at h; simp at h
    rcases List.mem_append.mp hmem with hc | hlast
    · exact absurd hk (lookup_none_no_mem c key hnone kv hc)
    · have : kv = (key, e) := by simpa using hlast
      rw [this]

theorem lookup_map_update (c : MemoryCache α) (key : String)
    (g : CacheEntry α → CacheEntry α) :
    List.lookup key
        (c.map (fun kv => if kv.1 = key then (kv.1, g kv.2) else kv)) =
      Option.map g (List.lookup key c) := by
  induction c with
  | nil => simp
  | cons p t ih =>
    obtain ⟨k, v⟩ := p
    by_cases hk : k = key
    · subst hk
      simp [List.lookup_cons]
    · have hne : key ≠ k := fun hh => hk hh.symm
      have hbeq : (key == k) = false := by simpa using hne
      simp only [List.map_cons, if_neg hk, List.lookup_cons, hbeq]
      exact ih

theorem set_eq_dictInsert (c : MemoryCache α) (key : String) (v : α) (ttl : ℤ)
    (now : ℚ) (h0 : ttl ≠ 0) :
    set c key v (some ttl) now = (dictInsert c key ⟨v, now + (ttl : ℚ)⟩, true) := by
  simp [set, h0]

end CacheManager

/-- `hasSubstr s sub` decides "sub occurs in s as a contiguous substring":
it is `true` exactly when `s = pre ++ sub ++ post` for some `pre`, `post`. -/
theorem hasSubstr_iff_exists (sub : List Char) :
    ∀ s : List Char, hasSubstr s sub = true ↔ ∃ pre post, s = pre ++ sub ++ post := by
  intro s
  induction s with
  | nil =>
    simp only [hasSubstr, Bool.or_false]
    constructor
    · intro h
      have hpre : sub <+: ([] : List Char) := by simpa using h
      exact ⟨[], [], by simp [List.prefix_nil.mp hpre]⟩
    · rintro ⟨pre, post, hsplit⟩
      have h0 : pre ++ sub ++ post = [] := hsplit.symm
      simp only [List.append_eq_nil] at h0
      simp [h0.1.2, List.isPrefixOf_iff_prefix]
  | cons ch t ih =>
    simp only [hasSubstr, Bool.or_eq_true]
    constructor
    · intro h
      rcases h with hpref | htail
      · obtain ⟨r, hr⟩ := List.isPrefixOf_iff_prefix.mp hpref
        exact ⟨[], r, by simp [← hr]⟩
      · obtain ⟨pre, post, hsplit⟩ := ih.mp htail
        exact ⟨ch :: pre, post, by simp [hsplit]⟩
    · rintro ⟨pre, post, hsplit⟩
      cases pre with
      | nil =>
        left
        rw [List.isPrefixOf_iff_prefix]
        exact ⟨post, by simpa using hsplit.symm⟩
      | cons p pre' =>
        right
        apply ih.mpr
        simp only [List.cons_append, List.cons.injEq] at hsplit
        exact ⟨pre', post, hsplit.2⟩

/-! ### Theorems: claims C1 and C2 -/

open CircuitBreaker in
/-- C1: with `failure_threshold = 5`, five consecutive `on_failure` calls at
times `t1 … t5` starting from a fresh CLOSED breaker increment
`failure_count` and stamp `last_failure_time` each time, stay CLOSED through
the fourth failure, and open on the fifth; while OPEN, `can_execute` returns
`false` (leaving the state OPEN) at any time before the recovery timeout has
elapsed since `t5`, and returns `true` and moves to HALF_OPEN at any time
strictly more than `recovery_timeout` after `t5`. -/
theorem c1_circuit_breaker_opens_and_recovers
    (t1 t2 t3 t4 t5 nEarly nLate rt : ℚ)
    (hEarly : nEarly - t5 < rt) (hLate : nLate - t5 > rt) :
    ((freshBreaker rt).on_failure t1 =
        ⟨5, rt, CircuitState.CLOSED, 1, some t1, 0⟩) ∧
    (((freshBreaker rt).on_failure t1).on_failure t2 =
        ⟨5, rt, CircuitState.CLOSED, 2, some t2, 0⟩) ∧
    ((((freshBreaker rt).on_failure t1).on_failure t2).on_failure t3 =
        ⟨5, rt, CircuitState.CLOSED, 3, some t3, 0⟩) ∧
    (((((freshBreaker rt).on_failure t1).on_failure t2).on_failure t3).on_failure t4 =
        ⟨5, rt, CircuitState.CLOSED, 4, some t4, 0⟩) ∧
    ((((((freshBreaker rt).on_failure t1).on_failure t2).on_failure t3).on_failure t4).on_failure t5 =
        ⟨5, rt, CircuitState.OPEN, 5, some t5, 0⟩) ∧
    ((⟨5, rt, CircuitState.OPEN, 5, some t5, 0⟩ : CircuitBreaker).can_execute nEarly =
        (⟨5, rt, CircuitState.OPEN, 5, some t5, 0⟩, false)) ∧
    ((⟨5, rt, CircuitState.OPEN, 5, some t5, 0⟩ : CircuitBreaker).can_execute nLate =
        (⟨5, rt, CircuitState.HALF_OPEN, 5, some t5, 0⟩, true)) := by
  have e1 : (freshBreaker rt).on_failure t1 = ⟨5, rt, CircuitState.CLOSED, 1, some t1, 0⟩ :=
    on_failure_closed_below (freshBreaker rt) t1 rfl (by norm_num [freshBreaker])
  have e2 : ((freshBreaker rt).on_failure t1).on_failure t2 =
      ⟨5, rt, CircuitState.CLOSED, 2, some t2, 0⟩ := by
    rw [e1]
    exact on_failure_closed_below _ t2 rfl (by norm_num)
  have e3 : (((freshBreaker rt).on_failure t1).on_failure t2).on_failure t3 =
      ⟨5, rt, CircuitState.CLOSED, 3, some t3, 0⟩ := by
    rw [e2]
    exact on_failure_closed_below _ t3 rfl (by norm_num)
  have e4 : ((((freshBreaker rt).on_failure t1).on_failure t2).on_failure t3).on_failure t4 =
      ⟨5, rt, CircuitState.CLOSED, 4, some t4, 0⟩ := by
    rw [e3]
    exact on_failure_closed_below _ t4 rfl (by norm_num)
  have e5 : (((((freshBreaker rt).on_failure t1).on_failure t2).on_failure t3).on_failure t4).on_failure t5 =
      ⟨5, rt, CircuitState.OPEN, 5, some t5, 0⟩ := by
    rw [e4]
    exact on_failure_closed_reaches _ t5 rfl (by norm_num)
  refine ⟨e1, e2, e3, e4, e5, ?_, ?_⟩
  · exact can_execute_open_early _ nEarly t5 rfl rfl (not_lt.mpr hEarly.le)
  · exact can_execute_open_late _ nLate t5 rfl rfl hLate

/-- Witness for C1 at concrete inputs (`t_i = i`, timeout 60, probes at 10
and 100). -/
theorem c1_circuit_breaker_opens_and_recovers_witness :
    ((10 : ℚ) - 5 < 60 ∧ (100 : ℚ) - 5 > 60) ∧
    ((⟨5, 60, CircuitState.OPEN, 5, some 5, 0⟩ : CircuitBreaker).can_execute 100 =
      (⟨5, 60, CircuitState.HALF_OPEN, 5, some 5, 0⟩, true)) := by
  refine ⟨⟨by norm_num, by norm_num⟩, ?_⟩
  exact (c1_circuit_breaker_opens_and_recovers 1 2 3 4 5 10 100 60
    (by norm_num) (by norm_num)).2.2.2.2.2.2

open CircuitBreaker in
/-- Counterexample to C2: `on_failure` does not reset `success_count`, so a
breaker that banks one success in HALF_OPEN, fails (reopening), and re-enters
HALF_OPEN after the timeout closes after a SINGLE further success — not after
two fresh consecutive successes as the claim states. -/
theorem c2_counterexample_single_success_closes_after_reentry :
    (probationBreaker.on_success = ⟨5, 60, CircuitState.HALF_OPEN, 5, some 0, 1⟩) ∧
    (probationBreaker.on_success.on_failure 10 =
      ⟨5, 60, CircuitState.OPEN, 6, some 10, 1⟩) ∧
    ((probationBreaker.on_success.on_failure 10).can_execute 100 =
      (⟨5, 60, CircuitState.HALF_OPEN, 6, some 10, 1⟩, true)) ∧
    (((probationBreaker.on_success.on_failure 10).can_execute 100).1.on_success.state =
      CircuitState.CLOSED) := by
  have e1 : probationBreaker.on_success = ⟨5, 60, CircuitState.HALF_OPEN, 5, some 0, 1⟩ :=
    on_success_half_open_below probationBreaker rfl (by norm_num [probationBreaker])
  have e2 : probationBreaker.on_success.on_failure 10 =
      ⟨5, 60, CircuitState.OPEN, 6, some 10, 1⟩ := by
    rw [e1]
    exact on_failure_half_open _ 10 rfl
  have e3 : (probationBreaker.on_success.on_failure 10).can_execute 100 =
      (⟨5, 60, CircuitState.HALF_OPEN, 6, some 10, 1⟩, true) := by
    rw [e2]
    exact can_execute_open_late _ 100 10 rfl rfl (by norm_num)
  refine ⟨e1, e2, e3, ?_⟩
  rw [e3]
  show (⟨5, 60, CircuitState.HALF_OPEN, 6, some 10, 1⟩ : CircuitBreaker).on_success.state =
    CircuitState.CLOSED
  rw [on_success_half_open_closes _ rfl (by norm_num)]

open CircuitBreaker in
/-- C2 (amended): `on_success` is a no-op outside HALF_OPEN; in HALF_OPEN it
increments `success_count`, and once the count reaches 2 the breaker closes
with both counters reset to 0.  But `success_count` is NOT reset when the
breaker leaves HALF_OPEN through a failure, nor by the OPEN → HALF_OPEN
transition of `can_execute`, so successes carry over between probations: a
breaker re-entering HALF_OPEN with one banked success closes after a single
further success. -/
theorem c2_on_success_semantics :
    (∀ cb : CircuitBreaker, cb.state ≠ CircuitState.HALF_OPEN → cb.on_success = cb) ∧
    (∀ cb : CircuitBreaker, cb.state = CircuitState.HALF_OPEN → cb.success_count = 0 →
      cb.on_success.state = CircuitState.HALF_OPEN ∧
      cb.on_success.success_count = 1 ∧
      cb.on_success.on_success.state = CircuitState.CLOSED ∧
      cb.on_success.on_success.failure_count = 0 ∧
      cb.on_success.on_success.success_count = 0) ∧
    (∀ (cb : CircuitBreaker) (t : ℚ), (cb.on_failure t).success_count = cb.success_count) ∧
    (∀ (cb : CircuitBreaker) (now : ℚ),
      ((cb.can_execute now).1).success_count = cb.success_count) ∧
    (∀ cb : CircuitBreaker, cb.state = CircuitState.HALF_OPEN → cb.success_count = 1 →
      cb.on_success.state = CircuitState.CLOSED) := by
  refine ⟨fun cb h => on_success_not_half_open cb h, ?_, ?_, ?_, ?_⟩
  · intro cb hs hc
    have h1 : cb.on_success = { cb with success_count := cb.success_count + 1 } :=
      on_success_half_open_below cb hs (by omega)
    have hs1 : cb.on_success.state = CircuitState.HALF_OPEN := by rw [h1]; exact hs
    have hc1 : cb.on_success.success_count = 1 := by rw [h1]; simp [hc]
    have h2 := on_success_half_open_closes cb.on_success hs1 (by omega)
    exact ⟨hs1, hc1, by rw [h2], by rw [h2], by rw [h2]⟩
  · intro cb t
    simp only [CircuitBreaker.on_failure]
    split
    all_goals try split
    all_goals rfl
  · intro cb now
    simp only [CircuitBreaker.can_execute]
    split
    all_goals try split
    all_goals try split
    all_goals rfl
  · intro cb hs hc
    have h := on_success_half_open_closes cb hs (by omega)
    rw [h]

/-- Witness for C2 (amended): applied to `probationBreaker` (HALF_OPEN,
`success_count = 0`): two successes close it; and to the breaker with one
banked success: one success closes it. -/
theorem c2_on_success_semantics_witness :
    probationBreaker.on_success.on_success.state = CircuitState.CLOSED ∧
    (⟨5, 60, CircuitState.HALF_OPEN, 6, some 10, 1⟩ : CircuitBreaker).on_success.state =
      CircuitState.CLOSED := by
  constructor
  · exact (c2_on_success_semantics.2.1 probationBreaker rfl rfl).2.2.1
  · exact c2_on_success_semantics.2.2.2.2 _ rfl rfl

/-! ### Theorems: claim C4 (delay calculation) -/

/-- Config used by the C4 counterexample: FIXED strategy with
`base_delay = 60 = max_delay` and jitter enabled. -/
def cfgJitterFixed : RetryConfig :=
  ⟨3, 60, 60, RetryStrategy.FIXED, true, 2⟩

/-- Exponential config of the C4 concrete example: `base_delay = 1.0`,
`backoff_factor = 2.0`, jitter off, `max_delay = 60.0`. -/
def cfgExpNoJitter : RetryConfig :=
  ⟨3, 1, 60, RetryStrategy.EXPONENTIAL, false, 2⟩

/-- Counterexample to C4: the claim fixes the order "clamp first, jitter
added after".  With the FIXED strategy, `base_delay = max_delay = 60` and a
legal jitter draw of `6 ∈ [0, 0.1 × 60]`, the source returns
`min(60 + 6, 60) = 60`, while the claim's order gives `min(60,60) + 6 = 66`. -/
theorem c4_counterexample_clamp_order :
    (0 ≤ (6 : ℚ) ∧ (6 : ℚ) ≤ (1 / 10) * strategy_delay cfgJitterFixed 1) ∧
    calculate_delay cfgJitterFixed 1 6 = 60 ∧
    calculate_delay_claimOrder cfgJitterFixed 1 6 = 66 ∧
    (66 : ℚ) ≠ 60 := by
  refine ⟨⟨by norm_num, ?_⟩, ?_, ?_, by norm_num⟩ <;>
    simp [strategy_delay, calculate_delay, calculate_delay_claimOrder, cfgJitterFixed,
      min_def] <;> norm_num

/-- C4 (amended): `calculate_delay` computes the strategy delay
(`base_delay` for FIXED, `base_delay × attempt` for LINEAR,
`base_delay × backoff_factor^(attempt−1)` for EXPONENTIAL), adds the jitter
draw FIRST when jitter is enabled, and clamps the sum to `max_delay` LAST —
so the result never exceeds `max_delay`, even with jitter.  With jitter off,
the exponential example (base 1.0, factor 2.0, `max_delay` 60) yields exactly
1.0, 2.0, 4.0 for attempts 1, 2, 3. -/
theorem c4_calculate_delay_jitter_before_clamp (cfg : RetryConfig) (attempt : Nat) (d : ℚ) :
    (calculate_delay cfg attempt d =
      min (strategy_delay cfg attempt + (if cfg.jitter then d else 0)) cfg.max_delay) ∧
    calculate_delay cfg attempt d ≤ cfg.max_delay ∧
    (cfg.strategy = RetryStrategy.EXPONENTIAL → cfg.base_delay = 1 →
      cfg.backoff_factor = 2 → cfg.jitter = false → cfg.max_delay = 60 →
      calculate_delay cfg 1 d = 1 ∧ calculate_delay cfg 2 d = 2 ∧
        calculate_delay cfg 3 d = 4) := by
  refine ⟨?_, ?_, ?_⟩
  · cases hj : cfg.jitter <;> simp [calculate_delay, hj]
  · exact min_le_right _ _
  · intro hstrat hbase hfac hjit hmax
    refine ⟨?_, ?_, ?_⟩ <;>
      simp [calculate_delay, strategy_delay, hstrat, hbase, hfac, hjit, hmax, min_def] <;>
      norm_num

/-- Witness for C4 (amended) at the exponential no-jitter config. -/
theorem c4_calculate_delay_jitter_before_clamp_witness :
    calculate_delay cfgExpNoJitter 1 0 = 1 ∧ calculate_delay cfgExpNoJitter 2 0 = 2 ∧
      calculate_delay cfgExpNoJitter 3 0 = 4 :=
  (c4_calculate_delay_jitter_before_clamp cfgExpNoJitter 1 0).2.2 rfl rfl rfl rfl rfl

/-! ### Theorems: claim C3 (retry executor loop) -/

theorem onFailureSeq_shift (cb : CircuitBreaker) (times : Nat → ℚ) (a : Nat) :
    ∀ n, onFailureSeq (cb.on_failure (times a)) times (a + 1) n =
      onFailureSeq cb times a (n + 1) := by
  intro n
  induction n with
  | zero => rfl
  | succ n ih =>
    have hidx : a + 1 + n = a + (n + 1) := by omega
    simp only [onFailureSeq, ih, hidx]

theorem retryLoop_count_le {E A : Type} (op : Nat → Except E A) (times : Nat → ℚ)
    (m : Nat) :
    ∀ (k a : Nat) (cb : CircuitBreaker), m + 1 - a ≤ k →
      (retryLoop op times m cb a).2.2 ≤ k + 1 := by
  intro k
  induction k with
  | zero =>
    intro a cb h
    rw [retryLoop]
    cases hop : op a with
    | error e =>
      have hnot : ¬ a ≤ m := by omega
      simp [hnot]
    | ok v => simp
  | succ k ih =>
    intro a cb h
    rw [retryLoop]
    cases hop : op a with
    | error e =>
      by_cases hle : a ≤ m
      · have hrec := ih (a + 1) (cb.on_failure (times a)) (by omega)
        simp [hle]
        omega
      · simp [hle]
    | ok v => simp

theorem retryLoop_all_fail {E A : Type} (op : Nat → Except E A) (times : Nat → ℚ)
    (m : Nat) (err : Nat → E) :
    ∀ (k a : Nat) (cb : CircuitBreaker), a + k = m + 1 →
      (∀ i, a ≤ i → i ≤ m + 1 → op i = Except.error (err i)) →
      retryLoop op times m cb a =
        (onFailureSeq cb times a (k + 1), Except.error (err (m + 1)), k + 1) := by
  intro k
  induction k with
  | zero =>
    intro a cb hak hfail
    have ha : a = m + 1 := by omega
    subst ha
    rw [retryLoop]
    simp only [hfail (m + 1) le_rfl le_rfl]
    rw [dif_neg (by omega)]
    rfl
  | succ k ih =>
    intro a cb hak hfail
    rw [retryLoop]
    simp only [hfail a le_rfl (by omega)]
    rw [dif_pos (by omega : a ≤ m)]
    rw [ih (a + 1) (cb.on_failure (times a)) (by omega)
      (fun i h1 h2 => hfail i (by omega) h2)]
    simp only [onFailureSeq_shift]

theorem retryLoop_success_after_failures {E A : Type} (op : Nat → Except E A)
    (times : Nat → ℚ) (m : Nat) (err : Nat → E) (v : A) :
    ∀ (k a : Nat) (cb : CircuitBreaker), a + k ≤ m + 1 →
      (∀ i, a ≤ i → i < a + k → op i = Except.error (err i)) →
      op (a + k) = Except.ok v →
      retryLoop op times m cb a =
        ((onFailureSeq cb times a k).on_success, Except.ok v, k + 1) := by
  intro k
  induction k with
  | zero =>
    intro a cb _ _ hok
    rw [retryLoop]
    have hok' : op a = Except.ok v := by simpa using hok
    simp only [hok']
    rfl
  | succ k ih =>
    intro a cb hle hfail hok
    rw [retryLoop]
    simp only [hfail a le_rfl (by omega)]
    rw [dif_pos (by omega : a ≤ m)]
    have hok' : op (a + 1 + k) = Except.ok v := by
      have hidx : a + 1 + k = a + (k + 1) := by omega
      rw [hidx]; exact hok
    rw [ih (a + 1) (cb.on_failure (times a)) (by omega)
      (fun i h1 h2 => hfail i (by omega) (by omega)) hok']
    simp only [onFailureSeq_shift]

/-- C3: `async_wrapper` with `max_retries = m`
(i) invokes the operation at most `m + 1` times;
(ii) raises the circuit-open error with zero invocations when the breaker
refuses at entry;
(iii) when the breaker admits the call and all `m + 1` attempts fail, each
failed attempt feeds `on_failure` (in attempt order, at that attempt's time),
and the failure of the LAST attempt is re-raised unmodified;
(iv) when attempts `1 … k` fail and attempt `k + 1 ≤ m + 1` succeeds, the
`k` failures feed `on_failure`, the success feeds `on_success`, the
operation's result is returned, and exactly `k + 1` invocations occur. -/
theorem c3_async_wrapper_retry_semantics {E A : Type} (cb : CircuitBreaker)
    (op : Nat → Except E A) (now : ℚ) (times : Nat → ℚ) (m : Nat)
    (err : Nat → E) (v : A) :
    ((async_wrapper cb op now times m).2.2 ≤ m + 1) ∧
    ((cb.can_execute now).2 = false →
      async_wrapper cb op now times m =
        ((cb.can_execute now).1, RetryOutcome.circuitOpen, 0)) ∧
    ((cb.can_execute now).2 = true →
      (∀ i, 1 ≤ i → i ≤ m + 1 → op i = Except.error (err i)) →
      async_wrapper cb op now times m =
        (onFailureSeq (cb.can_execute now).1 times 1 (m + 1),
          RetryOutcome.failed (err (m + 1)), m + 1)) ∧
    (∀ k, (cb.can_execute now).2 = true → k ≤ m →
      (∀ i, 1 ≤ i → i ≤ k → op i = Except.error (err i)) →
      op (k + 1) = Except.ok v →
      async_wrapper cb op now times m =
        ((onFailureSeq (cb.can_execute now).1 times 1 k).on_success,
          RetryOutcome.ok v, k + 1)) := by
  refine ⟨?_, ?_, ?_, ?_⟩
  · cases hce : (cb.can_execute now).2 with
    | false => simp [async_wrapper, hce]
    | true =>
      have hcount := retryLoop_count_le op times m m 1 (cb.can_execute now).1 (by omega)
      simp [async_wrapper, hce]
      omega
  · intro hce
    simp [async_wrapper, hce]
  · intro hce hfail
    have hall := retryLoop_all_fail op times m err m 1 (cb.can_execute now).1
      (by omega) hfail
    simp [async_wrapper, hce, hall]
  · intro k hce hk hfail hok
    have hsucc := retryLoop_success_after_failures op times m err v k 1
      (cb.can_execute now).1 (by omega)
      (fun i h1 h2 => hfail i h1 (by omega))
      (by rw [Nat.add_comm]; exact hok)
    simp [async_wrapper, hce, hsucc]

/-- Witness for C3: a fresh breaker, `max_retries = 1`, operation failing on
every attempt: two invocations, both failures recorded, last failure
re-raised. -/
theorem c3_async_wrapper_retry_semantics_witness :
    async_wrapper (freshBreaker 60) (fun _ => (Except.error "boom" : Except String Nat)) 0
        (fun i => (i : ℚ)) 1 =
      (onFailureSeq ((freshBreaker 60).can_execute 0).1 (fun i => (i : ℚ)) 1 2,
        RetryOutcome.failed "boom", 2) :=
  (c3_async_wrapper_retry_semantics (freshBreaker 60)
    (fun _ => (Except.error "boom" : Except String Nat)) 0 (fun i => (i : ℚ)) 1
    (fun _ => "boom") 0).2.2.1 rfl (fun _ _ _ => rfl)

/-! ### Theorems: claim C5 (cache lazy expiry) -/

/-- Counterexample to C5: after `set("k", 7, ttl=1)` at time 0, reading at
time 2 (more than 1 second later) the entry is expired; `exists` returns
`false` but performs NO eviction — the expired entry is still in the store —
while `get` does evict.  This refutes the claim's "in both cases the expired
entry is evicted from the store". -/
theorem c5_counterexample_exists_does_not_evict :
    ((CacheManager.set ([] : MemoryCache ℕ) "k" 7 (some 1) 0).1 =
      [("k", (⟨7, 1⟩ : CacheEntry ℕ))]) ∧
    ((CacheManager.«exists» [("k", (⟨7, 1⟩ : CacheEntry ℕ))] "k" 2).2 = false) ∧
    ((CacheManager.«exists» [("k", (⟨7, 1⟩ : CacheEntry ℕ))] "k" 2).1 =
      [("k", (⟨7, 1⟩ : CacheEntry ℕ))]) ∧
    (List.lookup "k" ((CacheManager.«exists» [("k", (⟨7, 1⟩ : CacheEntry ℕ))] "k" 2).1) =
      some ⟨7, 1⟩) ∧
    (CacheManager.get [("k", (⟨7, 1⟩ : CacheEntry ℕ))] "k" 2 = ([], none)) := by
  have h12 : ¬ ((1 : ℚ) > 2) := by norm_num
  refine ⟨?_, ?_, rfl, ?_, ?_⟩
  · simp [CacheManager.set, CacheManager.dictInsert]
  · simp only [CacheManager.«exists», List.lookup_cons]
    simp [decide_eq_false h12]
  · simp [CacheManager.«exists», List.lookup_cons]
  · simp only [CacheManager.get, List.lookup_cons]
    simp [CacheManager.eraseKey, h12]

/-- C5 (amended): after `set(key, value, ttl)` (any nonzero ttl — `ttl = 0`
falls back to 3600 via Python `or`), once strictly more than `ttl` seconds
have elapsed: `get` returns absent and evicts the entry; `exists` returns
`false` but does NOT evict — the store it leaves behind is unchanged;
`get_stats`'s active-key count nevertheless excludes the expired entry
(active keys are filtered by `expires_at > now`, not by eviction); and `get`
and `exists` never report a value whose `expires_at` is not in the future. -/
theorem c5_lazy_expiry_get_evicts_exists_does_not {α : Type}
    (c c' : MemoryCache α) (key : String) (v : α) (ttl : ℤ) (tset now : ℚ)
    (h0 : ttl ≠ 0) (helapsed : tset + (ttl : ℚ) < now)
    (hC : c' = (CacheManager.set c key v (some ttl) tset).1) :
    ((CacheManager.get c' key now).2 = none) ∧
    ((CacheManager.get c' key now).1 = CacheManager.eraseKey c' key) ∧
    ((CacheManager.«exists» c' key now).2 = false) ∧
    ((CacheManager.«exists» c' key now).1 = c') ∧
    ((CacheManager.get_stats c' now).2 =
      (c'.filter (fun kv => decide (kv.2.expires_at > now))).length) ∧
    (∀ kv ∈ c'.filter (fun kv => decide (kv.2.expires_at > now)), kv.1 ≠ key) ∧
    (∀ (c'' : MemoryCache α) (k : String) (w : α),
      (CacheManager.get c'' k now).2 = some w →
      ∃ e, List.lookup k c'' = some e ∧ e.expires_at > now ∧ e.value = w) ∧
    (∀ (c'' : MemoryCache α) (k : String),
      (CacheManager.«exists» c'' k now).2 = true →
      ∃ e, List.lookup k c'' = some e ∧ e.expires_at > now) := by
  have hlook : List.lookup key c' = some ⟨v, tset + (ttl : ℚ)⟩ := by
    rw [hC, CacheManager.set_eq_dictInsert c key v ttl tset h0]
    exact CacheManager.lookup_dictInsert_self c key _
  have hnotlive : ¬ (tset + (ttl : ℚ) > now) := by linarith
  have hget : CacheManager.get c' key now = (CacheManager.eraseKey c' key, none) := by
    simp only [CacheManager.get, hlook]
    rw [if_neg hnotlive]
  have hex : CacheManager.«exists» c' key now = (c', false) := by
    simp only [CacheManager.«exists», hlook]
    rw [decide_eq_false hnotlive]
  refine ⟨by rw [hget], by rw [hget], by rw [hex], by rw [hex], rfl, ?_, ?_, ?_⟩
  · intro kv hkv
    rw [List.mem_filter] at hkv
    intro hk
    have hkv2 : kv.2 = ⟨v, tset + (ttl : ℚ)⟩ := by
      apply CacheManager.mem_dictInsert_key_eq c key _ kv _ hk
      rw [hC, CacheManager.set_eq_dictInsert c key v ttl tset h0] at hkv
      exact hkv.1
    rw [hkv2] at hkv
    have := of_decide_eq_true hkv.2
    exact hnotlive this
  · intro c'' k w hw
    simp only [CacheManager.get] at hw
    cases hl : List.lookup k c'' with
    | none => simp [hl] at hw
    | some entry =>
      by_cases hx : entry.expires_at > now
      · simp [hl, hx] at hw
        exact ⟨entry, rfl, hx, hw⟩
      · simp [hl, hx] at hw
  · intro c'' k hw
    simp only [CacheManager.«exists»] at hw
    cases hl : List.lookup k c'' with
    | none => simp [hl] at hw
    | some entry =>
      simp [hl] at hw
      exact ⟨entry, rfl, hw⟩

/-- Witness for C5 (amended) at `c = []`, `key = "k"`, `v = 7`, `ttl = 1`,
set at time 0, read at time 2. -/
theorem c5_lazy_expiry_witness :
    (CacheManager.get ((CacheManager.set ([] : MemoryCache ℕ) "k" 7 (some 1) 0).1) "k" 2).2 =
        none ∧
    (CacheManager.«exists» ((CacheManager.set ([] : MemoryCache ℕ) "k" 7 (some 1) 0).1)
        "k" 2).1 =
      (CacheManager.set ([] : MemoryCache ℕ) "k" 7 (some 1) 0).1 := by
  have h := c5_lazy_expiry_get_evicts_exists_does_not ([] : MemoryCache ℕ)
    ((CacheManager.set ([] : MemoryCache ℕ) "k" 7 (some 1) 0).1) "k" 7 1 0 2
    (by norm_num) (by norm_num) rfl
  exact ⟨h.1, h.2.2.2.1⟩

/-! ### Theorems: claim C6 (pattern invalidation) -/

/-- Cache used by the C6 witness. -/
def cW : MemoryCache ℕ :=
  [("user:profile:1", ⟨1, 0⟩), ("other", ⟨2, 0⟩)]

/-- Counterexample to C6: the claim says only a TRAILING `'*'` is stripped,
wildcards elsewhere staying intact.  The source strips every `'*'`: on
pattern `"a*b"` and the single key `"ab"`, the source deletes the key and
returns 1, while the claim's trailing-only semantics leaves `"ab"` untouched
and returns 0. -/
theorem c6_counterexample_inner_star_stripped :
    ((CacheManager.clear_pattern [("ab", (⟨1, 0⟩ : CacheEntry ℕ))] "a*b").2 = 1) ∧
    ((CacheManager.clear_pattern [("ab", (⟨1, 0⟩ : CacheEntry ℕ))] "a*b").1 = []) ∧
    ((clear_pattern_claimTrailing [("ab", (⟨1, 0⟩ : CacheEntry ℕ))] "a*b").2 = 0) ∧
    ((clear_pattern_claimTrailing [("ab", (⟨1, 0⟩ : CacheEntry ℕ))] "a*b").1 =
      [("ab", (⟨1, 0⟩ : CacheEntry ℕ))]) := by
  refine ⟨?_, ?_, ?_, ?_⟩ <;> decide

/-- C6 (amended): `clear_pattern` strips EVERY `'*'` from the pattern,
wherever it occurs (not only trailing ones), then deletes exactly those keys
that contain the remaining string as a literal substring anywhere (in the
`∃ pre post` sense), returning the exact number of keys deleted; every other
entry survives unchanged, and deleted + surviving = total. -/
theorem c6_clear_pattern_substring_anywhere {α : Type} (c : MemoryCache α)
    (pattern : String) (stripped : List Char)
    (hS : stripped = pattern.data.filter (fun ch => ch != '*')) :
    (∀ kv : String × CacheEntry α, kv ∈ (CacheManager.clear_pattern c pattern).1 ↔
      kv ∈ c ∧ ¬ ∃ pre post, kv.1.data = pre ++ stripped ++ post) ∧
    (∀ kv : String × CacheEntry α, kv ∈ c →
      (kv ∉ (CacheManager.clear_pattern c pattern).1 ↔
        ∃ pre post, kv.1.data = pre ++ stripped ++ post)) ∧
    ((CacheManager.clear_pattern c pattern).2 +
      ((CacheManager.clear_pattern c pattern).1).length = c.length) := by
  subst hS
  have hmain : ∀ kv : String × CacheEntry α,
      kv ∈ (CacheManager.clear_pattern c pattern).1 ↔
      kv ∈ c ∧ ¬ ∃ pre post,
        kv.1.data = pre ++ pattern.data.filter (fun ch => ch != '*') ++ post := by
    intro kv
    simp only [CacheManager.clear_pattern, List.mem_filter, Bool.not_eq_true']
    constructor
    · rintro ⟨hmem, hq⟩
      refine ⟨hmem, fun hex => ?_⟩
      rw [(hasSubstr_iff_exists _ _).mpr hex] at hq
      exact Bool.true_eq_false.mp hq
    · rintro ⟨hmem, hnex⟩
      refine ⟨hmem, ?_⟩
      cases hq : hasSubstr kv.1.data (pattern.data.filter (fun ch => ch != '*')) with
      | false => rfl
      | true => exact absurd ((hasSubstr_iff_exists _ _).mp hq) hnex
  refine ⟨hmain, ?_, ?_⟩
  · intro kv hkv
    constructor
    · intro hnotin
      by_contra hnex
      exact hnotin ((hmain kv).mpr ⟨hkv, hnex⟩)
    · intro hex hin
      exact ((hmain kv).mp hin).2 hex
  · simp only [CacheManager.clear_pattern]
    exact (List.length_eq_length_filter_add
      (fun kv : String × CacheEntry α =>
        hasSubstr kv.1.data (pattern.data.filter (fun ch => ch != '*')))).symm

/-- Witness for C6 (amended) on a two-key cache and pattern `"user:*"`:
deleted-plus-surviving counts add up to the total of 2. -/
theorem c6_clear_pattern_substring_anywhere_witness :
    (CacheManager.clear_pattern cW "user:*").2 +
      ((CacheManager.clear_pattern cW "user:*").1).length = 2 :=
  (c6_clear_pattern_substring_anywhere cW "user:*" _ rfl).2.2

/-! ### Theorems: claim C10 (expire resurrects expired entries) -/

/-- C10: `expire(key, seconds)` on a key whose entry is expired but still in
the store (set with ttl, more than ttl elapsed, no eviction yet — note
`exists` reports `false` for it) does NOT treat the entry as absent: it
returns `true`, stamps `expires_at = now + seconds`, and afterwards `get`
returns the stale value again (for positive `seconds`). -/
theorem c10_expire_resurrects_expired_entry {α : Type}
    (c c' : MemoryCache α) (key : String) (v : α) (ttl seconds : ℤ) (tset now : ℚ)
    (h0 : ttl ≠ 0) (helapsed : tset + (ttl : ℚ) < now) (hsec : 0 < seconds)
    (hC : c' = (CacheManager.set c key v (some ttl) tset).1) :
    (List.lookup key c' = some ⟨v, tset + (ttl : ℚ)⟩) ∧
    ((CacheManager.«exists» c' key now).2 = false) ∧
    ((CacheManager.expire c' key seconds now).2 = true) ∧
    (List.lookup key ((CacheManager.expire c' key seconds now).1) =
      some ⟨v, now + (seconds : ℚ)⟩) ∧
    ((CacheManager.get ((CacheManager.expire c' key seconds now).1) key now).2 =
      some v) := by
  have hlook : List.lookup key c' = some ⟨v, tset + (ttl : ℚ)⟩ := by
    rw [hC, CacheManager.set_eq_dictInsert c key v ttl tset h0]
    exact CacheManager.lookup_dictInsert_self c key _
  have hnotlive : ¬ (tset + (ttl : ℚ) > now) := by linarith
  have hex : (CacheManager.«exists» c' key now).2 = false := by
    simp only [CacheManager.«exists», hlook]
    rw [decide_eq_false hnotlive]
  have hexp : (CacheManager.expire c' key seconds now).2 = true := by
    simp only [CacheManager.expire, hlook]
  have hlook2 : List.lookup key ((CacheManager.expire c' key seconds now).1) =
      some ⟨v, now + (seconds : ℚ)⟩ := by
    simp only [CacheManager.expire, hlook]
    rw [CacheManager.lookup_map_update c' key
      (fun e => (⟨e.value, now + (seconds : ℚ)⟩ : CacheEntry α))]
    rw [hlook]
    rfl
  have hlive : (tset + (ttl : ℚ) < now) ∨ True := Or.inr trivial
  refine ⟨hlook, hex, hexp, hlook2, ?_⟩
  have hpos : now + (seconds : ℚ) > now := by
    have : (0 : ℚ) < (seconds : ℚ) := by exact_mod_cast hsec
    linarith
  simp only [CacheManager.get, hlook2]
  rw [if_pos hpos]

/-- Witness for C10: set `"k"` with ttl 1 at time 0, expire it with 5 more
seconds at time 2 (already expired), read back at time 2: the stale value 7
is returned again. -/
theorem c10_expire_resurrects_expired_entry_witness :
    (CacheManager.get
      ((CacheManager.expire ((CacheManager.set ([] : MemoryCache ℕ) "k" 7 (some 1) 0).1)
        "k" 5 2).1) "k" 2).2 = some 7 :=
  (c10_expire_resurrects_expired_entry ([] : MemoryCache ℕ) _ "k" 7 1 5 0 2
    (by norm_num) (by norm_num) (by norm_num) rfl).2.2.2.2

/-! ### Theorems: monitoring helper lemmas -/

theorem foldl_record_request_total (events : List (ℚ × Bool)) :
    ∀ mc : MetricsCollector,
      (events.foldl (fun m e => record_request m e.1 e.2) mc).total_requests =
        mc.total_requests + events.length := by
  induction events with
  | nil => intro mc; simp
  | cons e rest ih =>
    intro mc
    simp only [List.foldl_cons, List.length_cons]
    rw [ih (record_request mc e.1 e.2)]
    simp [record_request]
    omega

theorem runHandlers_length {A : Type} (alert : A) :
    ∀ hs : List (A → Except String Unit), (runHandlers hs alert).length = hs.length := by
  intro hs
  induction hs with
  | nil => rfl
  | cons h t ih => simp [runHandlers, ih]

theorem runHandlers_get {A : Type} (alert : A) :
    ∀ (hs : List (A → Except String Unit)) (i : Nat) (h : i < hs.length),
      (runHandlers hs alert).get ⟨i, by rw [runHandlers_length]; exact h⟩ =
        (hs.get ⟨i, h⟩) alert := by
  intro hs
  induction hs with
  | nil => intro i h; exact absurd h (Nat.not_lt_zero i)
  | cons hd tl ih =>
    intro i h
    cases i with
    | zero => rfl
    | succ j => exact ih j (Nat.lt_of_succ_lt_succ h)

theorem process_alerts_state {A : Type} (alerts : List A) :
    ∀ st : AlertManagerState A,
      (process_alerts st alerts).1.alerts = st.alerts ++ alerts ∧
      (process_alerts st alerts).1.handlers = st.handlers := by
  induction alerts with
  | nil => intro st; simp [process_alerts]
  | cons a rest ih =>
    intro st
    simp only [process_alerts]
    constructor
    · rw [(ih (process_alert st a).1).1]
      simp [process_alert]
    · rw [(ih (process_alert st a).1).2]
      rfl

/-! ### Theorems: claim C7 (tumbling per-minute window) -/

/-- Counterexample to C7: after three `record_request`s in the window
(`total_requests = 3`), the first computation made 60 seconds after the last
reset reports `0.0` — NOT the previous window's accumulated total of 3 —
while zeroing the counters and advancing the reset time. -/
theorem c7_counterexample_boundary_reports_zero :
    (mcW.total_requests = 3) ∧ (mcW.error_count = 1) ∧
    (calculate_requests_per_minute mcW 60 = (⟨mcW.request_times, 0, 0, 60⟩, 0)) ∧
    ((0 : ℚ) ≠ 3) := by
  have hmc : mcW = ⟨[1, 1, 1], 1, 3, 0⟩ := rfl
  refine ⟨rfl, rfl, ?_, by norm_num⟩
  rw [hmc]
  simp only [calculate_requests_per_minute]
  rw [if_pos (by norm_num : (60 : ℚ) - 0 ≥ 60)]

/-- C7 (amended): the per-minute counters form a tumbling window, but the
boundary computation DISCARDS the previous window's total: on the first
computation made 60 or more seconds after the last reset,
`calculate_requests_per_minute` zeroes both counters, advances the reset
time to `now`, and reports `0.0` (not the previous total); computations made
before 60 seconds have elapsed report the running total without resetting;
and `record_request` accumulates into the running counters (`+1` per
request, `+1` error on error, reset time untouched). -/
theorem c7_tumbling_window_boundary (mc : MetricsCollector) (now : ℚ) :
    (now - mc.last_reset ≥ 60 →
      calculate_requests_per_minute mc now = (⟨mc.request_times, 0, 0, now⟩, 0)) ∧
    (now - mc.last_reset < 60 →
      calculate_requests_per_minute mc now = (mc, (mc.total_requests : ℚ))) ∧
    (∀ (rt : ℚ) (isErr : Bool),
      (record_request mc rt isErr).total_requests = mc.total_requests + 1 ∧
      (record_request mc rt isErr).error_count =
        mc.error_count + (if isErr then 1 else 0) ∧
      (record_request mc rt isErr).last_reset = mc.last_reset) ∧
    (∀ events : List (ℚ × Bool),
      (events.foldl (fun m e => record_request m e.1 e.2) mc).total_requests =
        mc.total_requests + events.length) := by
  refine ⟨?_, ?_, ?_, ?_⟩
  · intro h
    simp only [calculate_requests_per_minute]
    rw [if_pos h]
  · intro h
    simp only [calculate_requests_per_minute]
    rw [if_neg (not_le.mpr h)]
  · intro rt isErr
    refine ⟨?_, ?_, ?_⟩ <;> simp [record_request]
  · intro events
    exact foldl_record_request_total events mc

/-- Witness for C7 (amended): `mcW` (3 requests since reset at 0) computed at
time 59 reports the running total 3 without resetting; at time 60 it resets. -/
theorem c7_tumbling_window_boundary_witness :
    calculate_requests_per_minute mcW 59 = (mcW, 3) ∧
    calculate_requests_per_minute mcW 60 = (⟨mcW.request_times, 0, 0, 60⟩, 0) := by
  have hlr : mcW.last_reset = 0 := rfl
  constructor
  · have h := (c7_tumbling_window_boundary mcW 59).2.1 (by rw [hlr]; norm_num)
    simpa using h
  · exact (c7_tumbling_window_boundary mcW 60).1 (by rw [hlr]; norm_num)

/-! ### Theorems: claim C8 (health check isolation) -/

/-- C8: `run_all_checks` returns exactly one record per registered check
(same count, same names in the same order); a check that returns normally
contributes its own record; a check that raises is caught locally and
replaced by an unhealthy record whose `error_message` carries the failure
text — so the batch always completes and no check's failure escapes. -/
theorem c8_run_all_checks_isolates_failures
    (checks : List (String × Except String ServiceHealth)) (now : ℚ) :
    ((run_all_checks checks now).length = checks.length) ∧
    ((run_all_checks checks now).map Prod.fst = checks.map Prod.fst) ∧
    (∀ name r, (name, Except.ok r) ∈ checks →
      (name, r) ∈ run_all_checks checks now) ∧
    (∀ name e, (name, Except.error e) ∈ checks →
      (name, (⟨name, HealthStatus.unhealthy, 0, now, some e, none⟩ : ServiceHealth)) ∈
        run_all_checks checks now) := by
  refine ⟨by simp [run_all_checks], ?_, ?_, ?_⟩
  · simp only [run_all_checks, List.map_map]
    apply List.map_congr_left
    intro nc _
    cases h : nc.2 <;> simp [h]
  · intro name r hmem
    exact List.mem_map.mpr ⟨(name, Except.ok r), hmem, rfl⟩
  · intro name e hmem
    exact List.mem_map.mpr ⟨(name, Except.error e), hmem, rfl⟩

/-- Witness for C8: one healthy check and one raising check — the batch
still yields two records and the raiser is reported unhealthy with its
message. -/
theorem c8_run_all_checks_isolates_failures_witness :
    (run_all_checks [("db", Except.ok dbRec), ("cache", Except.error "boom")] 0).length =
        2 ∧
    ("db", dbRec) ∈
      run_all_checks [("db", Except.ok dbRec), ("cache", Except.error "boom")] 0 ∧
    ("cache", (⟨"cache", HealthStatus.unhealthy, 0, 0, some "boom", none⟩ : ServiceHealth)) ∈
      run_all_checks [("db", Except.ok dbRec), ("cache", Except.error "boom")] 0 := by
  refine ⟨?_, ?_, ?_⟩
  · exact (c8_run_all_checks_isolates_failures
      [("db", Except.ok dbRec), ("cache", Except.error "boom")] 0).1
  · exact (c8_run_all_checks_isolates_failures
      [("db", Except.ok dbRec), ("cache", Except.error "boom")] 0).2.2.1 "db" dbRec
      (by simp)
  · exact (c8_run_all_checks_isolates_failures
      [("db", Except.ok dbRec), ("cache", Except.error "boom")] 0).2.2.2 "cache" "boom"
      (by simp)

/-! ### Theorems: claim C9 (alert dispatch) -/

/-- C9: `_process_alert` first appends the alert to the history, then invokes
every registered handler on it in registration order: the outcome list has
one entry per handler and its i-th entry is exactly handler i applied to the
alert — so a handler's failure (an `Except.error` outcome) cannot prevent
any other handler from being invoked, and the alert stays in the history
regardless of handler outcomes.  The `check_alerts` processing loop threads
this per alert: after processing a batch, the history is the old history
extended by exactly those alerts, whatever the handlers did, and no failure
propagates (the processing function is total). -/
theorem c9_process_alert_appends_then_runs_all_handlers {A : Type}
    (st : AlertManagerState A) (alert : A) :
    ((process_alert st alert).1.alerts = st.alerts ++ [alert]) ∧
    ((process_alert st alert).1.handlers = st.handlers) ∧
    ((process_alert st alert).2.length = st.handlers.length) ∧
    (∀ (i : Nat) (h : i < st.handlers.length),
      (process_alert st alert).2.get
          ⟨i, by simpa [process_alert, runHandlers_length] using h⟩ =
        (st.handlers.get ⟨i, h⟩) alert) ∧
    (∀ alerts : List A,
      (process_alerts st alerts).1.alerts = st.alerts ++ alerts ∧
      (process_alerts st alerts).1.handlers = st.handlers) := by
  refine ⟨rfl, rfl, runHandlers_length alert st.handlers, ?_, ?_⟩
  · intro i h
    exact runHandlers_get alert st.handlers i h
  · intro alerts
    exact process_alerts_state alerts st

/-- Witness for C9: two handlers, the FIRST of which always raises; both are
still invoked on the alert (outcome list `[error, ok]`), and the alert is
appended to the history. -/
theorem c9_process_alert_appends_then_runs_all_handlers_witness :
    (process_alert
        (⟨[], [fun _ => Except.error "handler down", fun _ => Except.ok ()]⟩ :
          AlertManagerState String) "cpu high").1.alerts = [] ++ ["cpu high"] ∧
    (process_alert
        (⟨[], [fun _ => Except.error "handler down", fun _ => Except.ok ()]⟩ :
          AlertManagerState String) "cpu high").2.length = 2 := by
  constructor
  · exact (c9_process_alert_appends_then_runs_all_handlers
      (⟨[], [fun _ => Except.error "handler down", fun _ => Except.ok ()]⟩ :
        AlertManagerState String) "cpu high").1
  · exact (c9_process_alert_appends_then_runs_all_handlers
      (⟨[], [fun _ => Except.error "handler down", fun _ => Except.ok ()]⟩ :
        AlertManagerState String) "cpu high").2.2.1

end SmartFix
